import Mathlib

/-!
Verification of the tone-generation and publishing script of the psynth
repository (src/python/send_flat.py), as a shallow embedding in Lean.

The script keeps a module-level integer counter named clock, generates
buffers of sine samples with flat_tone, and publishes them over a local
pub/sub socket in connect_and_send.  The embedding threads the clock
explicitly, models Python integer % (floor modulo, error on zero divisor)
with Option, models float arithmetic over the reals, and models the
4-byte big-endian float32 serialization of struct.pack as an arbitrary
function from a real value to 4 bytes.
-/

namespace Psynth

open Real

abbrev Byte := Fin 256

/-- Python integer modulo a % b: floor modulo, ZeroDivisionError when b = 0,
modelled as none. -/
def pymod (a b : ℤ) : Option ℤ :=
  if b = 0 then none else some (Int.fmod a b)

/-- Line 16 of send_flat.py: the statement clock = clock + 1 % sample_rate.
By Python operator precedence this is clock + (1 % sample_rate).  Returns the
new clock value, or none when sample_rate = 0 (ZeroDivisionError). -/
def clockStep (sample_rate clock : ℤ) : Option ℤ :=
  (pymod 1 sample_rate).map (fun m => clock + m)

/-- Line 17 of send_flat.py: math.sin((clock * frequency * 2.0 * math.pi) /
sample_rate), with float arithmetic idealized over the reals. -/
noncomputable def sampleVal (frequency : ℝ) (sample_rate clock : ℤ) : ℝ :=
  Real.sin (((clock : ℝ) * frequency * 2 * Real.pi) / (sample_rate : ℝ))

/-- Lines 14-18 of send_flat.py: next_value advances the module-level clock
and returns the sine sample at the new clock, here returned together with the
new clock value. -/
noncomputable def next_value (frequency : ℝ) (sample_rate clock : ℤ) :
    Option (ℝ × ℤ) :=
  (clockStep sample_rate clock).map (fun c => (sampleVal frequency sample_rate c, c))

/-- Line 19 of send_flat.py: floats = [next_value() for _ in range(n_samples)],
with the module-level clock threaded explicitly.  Returns the list of generated
float samples in generation order together with the final clock value, or none
when a ZeroDivisionError is raised. -/
noncomputable def flatToneFloats (frequency : ℝ) (sample_rate : ℤ) :
    ℕ → ℤ → Option (List ℝ × ℤ)
  | 0, clock => some ([], clock)
  | n + 1, clock =>
    match next_value frequency sample_rate clock with
    | none => none
    | some (v, c) =>
      (flatToneFloats frequency sample_rate n c).map (fun p => (v :: p.1, p.2))

/-- The clock values taken during one run of flat_tone, in generation order
(each is the counter value current at the corresponding sample), together with
the final clock.  A computable projection of flatToneFloats. -/
def clockRun (sample_rate : ℤ) : ℕ → ℤ → Option (List ℤ × ℤ)
  | 0, clock => some ([], clock)
  | n + 1, clock =>
    match clockStep sample_rate clock with
    | none => none
    | some c => (clockRun sample_rate n c).map (fun p => (c :: p.1, p.2))

/-- Modelled from the spec: struct.pack with format string of a big-endian
float32 serializes one float value as exactly 4 bytes.  The bit-level IEEE-754
rounding of a real number is outside a real-valued embedding, so the encoding
is an arbitrary function enc from the value to its 4 bytes; the claims under
verification use only that it is a fixed 4-byte encoding of the value. -/
def packChunk (enc : ℝ → Fin 4 → Byte) (v : ℝ) : List Byte :=
  List.ofFn (enc v)

/-- Lines 13-22 of send_flat.py: flat_tone generates n_samples samples starting
from the given module-level clock value and returns the concatenation of their
4-byte serializations (line 21), together with the final clock value. -/
noncomputable def flat_tone (enc : ℝ → Fin 4 → Byte) (frequency : ℝ)
    (sample_rate : ℤ) (n_samples : ℕ) (clock : ℤ) : Option (List Byte × ℤ) :=
  (flatToneFloats frequency sample_rate n_samples clock).map
    (fun p => ((p.1.map (packChunk enc)).flatten, p.2))

/-- A concrete byte encoding, used only to instantiate theorems at concrete
inputs. -/
def encZero : ℝ → Fin 4 → Byte := fun _ _ => 0

/-- One observable action of the publisher in connect_and_send. -/
inductive PubEvent
  | bindAddr : String → PubEvent
  | sleepFor : ℚ → PubEvent
  | send : PubEvent

/-- Line 29 of send_flat.py: the endpoint address pattern
ipc:///tmp/.psynth.%d for a channel index. -/
def psynthAddr (channel : ℤ) : String :=
  "ipc:///tmp/.psynth." ++ toString channel

/-- Line 36 of send_flat.py: the per-iteration sleep 1 / (48000 / 2048 + 10)
seconds, computed exactly over the rationals (every intermediate value of the
float computation is exactly representable, so the real value agrees). -/
def sleepDuration : ℚ := 1 / (48000 / 2048 + 10)

/-- Lines 34-38 of send_flat.py: one iteration of the publish loop, which
sends one flat_tone buffer and then sleeps. -/
def loopIter : List PubEvent :=
  [PubEvent.send, PubEvent.sleepFor sleepDuration]

/-- Lines 25-38 of send_flat.py: the observable action trace of
connect_and_send: bind the channel endpoint (line 29), sleep 0.25 s (line 32),
then run the publish loop.  The wall-clock stopping condition of the while
loop is abstracted by the number of completed iterations; the loop body runs
at least once before the time check. -/
def connect_and_send (channel : ℤ) (iterations : ℕ) : List PubEvent :=
  [PubEvent.bindAddr (psynthAddr channel), PubEvent.sleepFor (1 / 4)] ++
    (List.replicate iterations loopIter).flatten

/-- Recognizes a bind action in a publisher trace. -/
def isBindEv : PubEvent → Bool
  | PubEvent.bindAddr _ => true
  | _ => false

/-! ### Helper lemmas -/

lemma fmod_one_of_one_lt {r : ℤ} (hr : 1 < r) : Int.fmod 1 r = 1 :=
  Int.fmod_eq_of_lt (by norm_num) hr

lemma clockStep_of_one_lt {r : ℤ} (hr : 1 < r) (c : ℤ) :
    clockStep r c = some (c + 1) := by
  have hr0 : r ≠ 0 := by omega
  simp [clockStep, pymod, hr0, fmod_one_of_one_lt hr]

lemma clockStep_one (c : ℤ) : clockStep 1 c = some c := by
  simp [clockStep, pymod]

lemma clockStep_zero (c : ℤ) : clockStep 0 c = none := by
  simp [clockStep, pymod]

lemma clockStep_isSome {r : ℤ} (hr : r ≠ 0) (c : ℤ) :
    clockStep r c = some (c + Int.fmod 1 r) := by
  simp [clockStep, pymod, hr]

/-- Closed form of the clock trace when the sample rate exceeds 1: the counter
advances by exactly one per sample. -/
lemma clockRun_of_one_lt {r : ℤ} (hr : 1 < r) :
    ∀ (n : ℕ) (c : ℤ),
      clockRun r n c =
        some ((List.range n).map (fun i : ℕ => c + (i : ℤ) + 1), c + n) := by
  intro n
  induction n with
  | zero => intro c; simp [clockRun]
  | succ n ih =>
    intro c
    rw [clockRun, clockStep_of_one_lt hr]
    simp only [ih (c + 1), Option.map_some', List.range_succ_eq_map,
      List.map_cons, List.map_map, Option.some.injEq, Prod.mk.injEq,
      Nat.cast_zero, List.cons.injEq]
    refine ⟨⟨by ring, ?_⟩, by push_cast; ring⟩
    refine List.map_congr_left ?_
    intro i _
    simp only [Function.comp_apply, Nat.succ_eq_add_one]
    push_cast
    ring

/-- Closed form of the clock trace when the sample rate is 1: the increment
1 % 1 is 0 and the counter never advances. -/
lemma clockRun_one : ∀ (n : ℕ) (c : ℤ),
    clockRun 1 n c = some (List.replicate n c, c) := by
  intro n
  induction n with
  | zero => intro c; simp [clockRun]
  | succ n ih =>
    intro c
    rw [clockRun, clockStep_one]
    simp [ih c, List.replicate_succ]

/-- The float samples are exactly the clock-trace values mapped through the
sine formula, and the final clocks agree. -/
lemma flatToneFloats_eq_clockRun (f : ℝ) (r : ℤ) :
    ∀ (n : ℕ) (c : ℤ),
      flatToneFloats f r n c =
        (clockRun r n c).map (fun p => (p.1.map (sampleVal f r), p.2)) := by
  intro n
  induction n with
  | zero => intro c; simp [flatToneFloats, clockRun]
  | succ n ih =>
    intro c
    rw [flatToneFloats, clockRun, next_value]
    cases h : clockStep r c with
    | none => simp
    | some c1 =>
      simp only [Option.map_some']
      rw [ih c1]
      cases h2 : clockRun r n c1 with
      | none => simp
      | some p => simp

/-- The byte buffer built from a list of samples is 4 bytes per sample. -/
lemma flatten_pack_length (enc : ℝ → Fin 4 → Byte) :
    ∀ vs : List ℝ, ((vs.map (packChunk enc)).flatten).length = 4 * vs.length := by
  intro vs
  induction vs with
  | nil => simp
  | cons v vs ih =>
    simp only [List.map_cons, List.flatten_cons, List.length_append, ih,
      List.length_cons, packChunk, List.length_ofFn]
    ring

/-- For a nonzero sample rate the generation loop always succeeds, with one
sample per iteration. -/
lemma clockRun_isSome {r : ℤ} (hr : r ≠ 0) :
    ∀ (n : ℕ) (c : ℤ), ∃ cs c2,
      clockRun r n c = some (cs, c2) ∧ cs.length = n := by
  intro n
  induction n with
  | zero => intro c; exact ⟨[], c, by simp [clockRun], rfl⟩
  | succ n ih =>
    intro c
    obtain ⟨cs, c2, h, hlen⟩ := ih (c + Int.fmod 1 r)
    exact ⟨(c + Int.fmod 1 r) :: cs, c2, by rw [clockRun, clockStep_isSome hr]; simp [h],
      by simp [hlen]⟩

/-- The first generated sample of flat_tone(440, 48000, 2048) from a fresh
clock of 0 is the sample at counter value 1, followed by 2047 more samples,
with the final clock at 2048. -/
lemma flatToneFloats_first_sample :
    ∃ rest : List ℝ, flatToneFloats 440 48000 2048 0 =
      some (sampleVal 440 48000 1 :: rest, 2048) ∧ rest.length = 2047 := by
  have h := flatToneFloats_eq_clockRun (440 : ℝ) 48000 2048 0
  rw [clockRun_of_one_lt (by norm_num : (1 : ℤ) < 48000) 2048 0] at h
  rw [(by norm_num : (2048 : ℕ) = 2047 + 1), List.range_succ_eq_map] at h
  simp only [Option.map_some', List.map_cons, Nat.cast_zero] at h
  refine ⟨(((List.range 2047).map Nat.succ).map
    (fun i : ℕ => (0 : ℤ) + (i : ℤ) + 1)).map (sampleVal 440 48000), ?_, by simp⟩
  rw [h]
  norm_num

/-- Numeric bound for the first sample of the 440 Hz tone at 48000 Hz:
sin(880 pi / 48000) is within 0.0001 of 0.0575. -/
lemma first_sample_bound : |sampleVal 440 48000 1 - 0.0575| < 0.0001 := by
  have hv : sampleVal 440 48000 1 =
      Real.sin ((1 * 440 * 2 * Real.pi) / 48000) := by
    rw [sampleVal]; norm_num
  rw [hv]
  have hpl := Real.pi_gt_d6
  have hpu := Real.pi_lt_d6
  set x : ℝ := (1 * 440 * 2 * Real.pi) / 48000 with hx
  have hx0 : 0 < x := by
    rw [hx]; positivity
  have hxu : x < 0.0576 := by rw [hx]; nlinarith
  have hxl : 0.0575958 < x := by rw [hx]; nlinarith
  have hx1 : x ≤ 1 := by nlinarith
  have hs1 : Real.sin x < x := Real.sin_lt hx0
  have hs2 : x - x ^ 3 / 4 < Real.sin x := Real.sin_gt_sub_cube hx0 hx1
  have hcube : x ^ 3 < 0.0576 ^ 3 := pow_lt_pow_left₀ hxu hx0.le (by norm_num)
  rw [abs_sub_lt_iff]
  constructor <;> nlinarith

lemma fmod_one_nonneg {r : ℤ} (hr : 1 ≤ r) : 0 ≤ Int.fmod 1 r := by
  rcases eq_or_lt_of_le hr with h | h
  · rw [← h]
    decide
  · rw [fmod_one_of_one_lt h]
    norm_num

/-- For any sample rate of at least 1, the clock trace of one run is a
monotonically non-decreasing sequence starting from the initial clock. -/
lemma clockRun_chain {r : ℤ} (hr : 1 ≤ r) :
    ∀ (n : ℕ) (c : ℤ), ∃ cs c2, clockRun r n c = some (cs, c2) ∧
      List.Chain' (· ≤ ·) (c :: cs) := by
  intro n
  induction n with
  | zero =>
    intro c
    exact ⟨[], c, by simp [clockRun], List.chain'_singleton c⟩
  | succ n ih =>
    intro c
    obtain ⟨cs, c2, hrun, hchain⟩ := ih (c + Int.fmod 1 r)
    refine ⟨(c + Int.fmod 1 r) :: cs, c2, ?_, ?_⟩
    · rw [clockRun, clockStep_isSome (by omega : r ≠ 0)]
      simp [hrun]
    · exact List.Chain'.cons (by have := fmod_one_nonneg hr; omega) hchain

/-- The generation loop raises ZeroDivisionError exactly when the sample rate
is 0 and at least one sample is requested. -/
lemma clockRun_eq_none_iff (r : ℤ) (n : ℕ) (c : ℤ) :
    clockRun r n c = none ↔ (r = 0 ∧ 1 ≤ n) := by
  cases n with
  | zero => simp [clockRun]
  | succ n =>
    constructor
    · intro h
      refine ⟨?_, by omega⟩
      by_contra h0
      obtain ⟨cs, c2, hrun, -⟩ := clockRun_isSome h0 (n + 1) c
      rw [hrun] at h
      exact Option.noConfusion h
    · rintro ⟨h0, -⟩
      subst h0
      rw [clockRun, clockStep_zero]

/-- One generation step at sample rate 48000 from a fresh clock. -/
lemma flatToneFloats_one_step :
    flatToneFloats 440 48000 1 0 = some ([sampleVal 440 48000 1], 1) := by
  rw [flatToneFloats_eq_clockRun, clockRun_of_one_lt (by norm_num : (1 : ℤ) < 48000) 1 0]
  simp [(by decide : List.range 1 = [0]), Function.comp]

/-- The publish loop of connect_and_send performs no bind actions. -/
lemma countP_loop (k : ℕ) :
    ((List.replicate k loopIter).flatten).countP isBindEv = 0 := by
  induction k with
  | zero => rfl
  | succ k ih =>
    rw [List.replicate_succ, List.flatten_cons, List.countP_append, ih]
    rfl

/-! ### Claims -/

/-- C1: for every frequency f > 0, sample_rate r > 0 and sample count n,
flat_tone returns the concatenation, in generation order, of the 4-byte
encodings of the n generated samples, so the buffer is exactly 4 * n bytes
long. -/
theorem flat_tone_buffer_length (enc : ℝ → Fin 4 → Byte) (f : ℝ) (r : ℤ)
    (n : ℕ) (c : ℤ) (hf : 0 < f) (hr : 0 < r) :
    ∃ vs c2, flatToneFloats f r n c = some (vs, c2) ∧ vs.length = n ∧
      flat_tone enc f r n c = some ((vs.map (packChunk enc)).flatten, c2) ∧
      ((vs.map (packChunk enc)).flatten).length = 4 * n := by
  obtain ⟨cs, c2, hrun, hlen⟩ := clockRun_isSome (by omega : r ≠ 0) n c
  refine ⟨cs.map (sampleVal f r), c2, ?_, by simp [hlen], ?_, ?_⟩
  · rw [flatToneFloats_eq_clockRun, hrun]
    rfl
  · rw [flat_tone, flatToneFloats_eq_clockRun, hrun]
    rfl
  · rw [flatten_pack_length]
    simp [hlen]

/-- Witness for C1 at enc = encZero, f = 440, r = 48000, n = 3, c = 0. -/
theorem flat_tone_buffer_length_witness :
    (0 : ℝ) < 440 ∧ (0 : ℤ) < 48000 ∧
      (∃ vs c2, flatToneFloats 440 48000 3 0 = some (vs, c2) ∧ vs.length = 3 ∧
        flat_tone encZero 440 48000 3 0 =
          some ((vs.map (packChunk encZero)).flatten, c2) ∧
        ((vs.map (packChunk encZero)).flatten).length = 4 * 3) :=
  ⟨by norm_num, by norm_num,
    flat_tone_buffer_length encZero 440 48000 3 0 (by norm_num) (by norm_num)⟩

/-- C2: each generated sample equals sin(2 pi f k / r) at the counter value k
current at that sample (the clock trace), and concretely
flat_tone(440, 48000, 2048) from a fresh clock of 0 yields an 8192-byte
buffer whose first sample is sin(2 pi 440 / 48000), within 0.0001 of 0.0575,
the counter being 1 after its first increment. -/
theorem flat_tone_sample_values (enc : ℝ → Fin 4 → Byte) (f : ℝ) (r : ℤ)
    (n : ℕ) (c : ℤ) :
    (∀ k : ℤ, sampleVal f r k =
      Real.sin (2 * Real.pi * f * (k : ℝ) / (r : ℝ))) ∧
    flatToneFloats f r n c =
      (clockRun r n c).map (fun p => (p.1.map (sampleVal f r), p.2)) ∧
    (∃ bs v rest,
      flat_tone enc 440 48000 2048 0 = some (bs, 2048) ∧ bs.length = 8192 ∧
      flatToneFloats 440 48000 2048 0 = some (v :: rest, 2048) ∧
      v = Real.sin ((1 * 440 * 2 * Real.pi) / 48000) ∧
      |v - 0.0575| < 0.0001) := by
  refine ⟨?_, flatToneFloats_eq_clockRun f r n c, ?_⟩
  · intro k
    rw [sampleVal]
    congr 1
    ring
  · obtain ⟨rest, hfl, hlen⟩ := flatToneFloats_first_sample
    refine ⟨(((sampleVal 440 48000 1 :: rest).map (packChunk enc)).flatten),
      sampleVal 440 48000 1, rest, ?_, ?_, hfl, ?_, first_sample_bound⟩
    · rw [flat_tone, hfl]
      rfl
    · rw [flatten_pack_length]
      simp [hlen]
    · rw [sampleVal]
      norm_num

/-- C3 counterexample: at the positive sample_rate 1 (where 1 % sample_rate
is 0) the counter does not advance by 1 per sample: one generated sample from
clock 0 leaves the counter trace at ([0], 0), not ([1], 1). -/
theorem clock_advance_counterexample :
    clockRun 1 1 0 = some ([0], 0) ∧ clockRun 1 1 0 ≠ some ([1], 1) := by
  decide

/-- C3 amended: the update evaluates as clock + (1 % sample_rate) by operator
precedence, so for sample_rate of at least 2 the counter advances by exactly 1
per generated sample, while for sample_rate = 1 the increment is 0; in both
cases the counter sequence is monotonically non-decreasing with no modulo
wrap. -/
theorem clock_advance_amended (r : ℤ) (n : ℕ) (c : ℤ) (hr : 1 ≤ r) :
    ∃ cs c2, clockRun r n c = some (cs, c2) ∧
      List.Chain' (· ≤ ·) (c :: cs) ∧
      (2 ≤ r → cs = (List.range n).map (fun i : ℕ => c + (i : ℤ) + 1) ∧
        c2 = c + n) ∧
      (r = 1 → cs = List.replicate n c ∧ c2 = c) := by
  obtain ⟨cs, c2, hrun, hchain⟩ := clockRun_chain hr n c
  refine ⟨cs, c2, hrun, hchain, ?_, ?_⟩
  · intro h2
    have h := clockRun_of_one_lt (by omega : (1 : ℤ) < r) n c
    rw [hrun] at h
    simpa using h
  · intro h1
    subst h1
    have h := clockRun_one n c
    rw [hrun] at h
    simpa using h

/-- Witness for C3 amended at r = 2, n = 1, c = 0. -/
theorem clock_advance_amended_witness :
    (1 : ℤ) ≤ 2 ∧
      (∃ cs c2, clockRun 2 1 0 = some (cs, c2) ∧
        List.Chain' (· ≤ ·) (0 :: cs) ∧
        ((2 : ℤ) ≤ 2 → cs = (List.range 1).map (fun i : ℕ => 0 + (i : ℤ) + 1) ∧
          c2 = 0 + (1 : ℕ)) ∧
        ((2 : ℤ) = 1 → cs = List.replicate 1 (0 : ℤ) ∧ c2 = 0)) :=
  ⟨by norm_num, clock_advance_amended 2 1 0 (by norm_num)⟩

/-- C4: after each publish, the publisher loop sleeps for exactly
buffer_samples / (sample_rate + fixed_margin) seconds, with buffer_samples =
2048, sample_rate = 48000 and fixed margin 20480 = 10 * 2048: the source
expression 1 / (48000 / 2048 + 10) equals 2048 / (48000 + 20480) exactly. -/
theorem publish_sleep_duration (channel : ℤ) (iterations : ℕ) :
    sleepDuration = 2048 / (48000 + 20480) ∧
    connect_and_send channel iterations =
      [PubEvent.bindAddr (psynthAddr channel), PubEvent.sleepFor (1 / 4)] ++
        (List.replicate iterations
          [PubEvent.send, PubEvent.sleepFor (2048 / (48000 + 20480))]).flatten := by
  have h : sleepDuration = 2048 / (48000 + 20480) := by
    rw [sleepDuration]
    norm_num
  exact ⟨h, by simp only [connect_and_send, loopIter, h]⟩

/-- C5: every sample produced by flat_tone lies in the closed interval
[-1, 1]. -/
theorem samples_in_unit_interval (f : ℝ) (r : ℤ) (n : ℕ) (c : ℤ)
    (vs : List ℝ) (c2 : ℤ) (v : ℝ) (hr : 0 < r)
    (hrun : flatToneFloats f r n c = some (vs, c2)) (hv : v ∈ vs) :
    -1 ≤ v ∧ v ≤ 1 := by
  rw [flatToneFloats_eq_clockRun] at hrun
  cases h : clockRun r n c with
  | none =>
    rw [h] at hrun
    exact Option.noConfusion hrun
  | some p =>
    rw [h] at hrun
    simp only [Option.map_some', Option.some.injEq, Prod.mk.injEq] at hrun
    obtain ⟨h1, -⟩ := hrun
    obtain ⟨k, -, hk⟩ := List.mem_map.1 (h1 ▸ hv)
    rw [← hk, sampleVal]
    exact ⟨Real.neg_one_le_sin _, Real.sin_le_one _⟩

/-- Witness for C5 at f = 440, r = 48000, n = 1, c = 0 and the single
generated sample. -/
theorem samples_in_unit_interval_witness :
    (0 : ℤ) < 48000 ∧
    flatToneFloats 440 48000 1 0 = some ([sampleVal 440 48000 1], 1) ∧
    sampleVal 440 48000 1 ∈ [sampleVal 440 48000 1] ∧
    (-1 ≤ sampleVal 440 48000 1 ∧ sampleVal 440 48000 1 ≤ 1) :=
  ⟨by norm_num, flatToneFloats_one_step, List.mem_singleton_self _,
    samples_in_unit_interval 440 48000 1 0 [sampleVal 440 48000 1] 1
      (sampleVal 440 48000 1) (by norm_num) flatToneFloats_one_step
      (List.mem_singleton_self _)⟩

/-- C6: two calls to flat_tone with the same frequency, sample rate, count
and the same starting value of the module-level clock return bit-identical
byte buffers and the same final clock. -/
theorem flat_tone_deterministic (enc : ℝ → Fin 4 → Byte) (f : ℝ) (r : ℤ)
    (n : ℕ) (c1 c2 : ℤ) (h : c1 = c2) :
    flat_tone enc f r n c1 = flat_tone enc f r n c2 := by
  rw [h]

/-- Witness for C6 at enc = encZero, f = 440, r = 48000, n = 2048,
starting clock 0 for both runs. -/
theorem flat_tone_deterministic_witness :
    (0 : ℤ) = 0 ∧
      flat_tone encZero 440 48000 2048 0 = flat_tone encZero 440 48000 2048 0 :=
  ⟨rfl, flat_tone_deterministic encZero 440 48000 2048 0 0 rfl⟩

/-- C7 counterexample: a negative sample_rate does not cause a
division-by-zero fault: Python evaluates 1 % (-48000) to -47999 (floor
modulo), so flat_tone(440, -48000, 1) produces a defined result. -/
theorem negative_rate_defined :
    (flat_tone encZero 440 (-48000) 1 0).isSome = true := by
  have h : clockRun (-48000) 1 0 = some ([-47999], -47999) := by decide
  rw [flat_tone, flatToneFloats_eq_clockRun, h]
  rfl

/-- C7 amended: flat_tone produces a defined result for every finite
frequency and every nonzero sample_rate (positive or negative); it faults
(ZeroDivisionError from 1 % 0) exactly when sample_rate = 0 and at least one
sample is requested. -/
theorem flat_tone_error_conditions (enc : ℝ → Fin 4 → Byte) (f : ℝ) (r : ℤ)
    (n : ℕ) (c : ℤ) :
    flat_tone enc f r n c = none ↔ (r = 0 ∧ 1 ≤ n) := by
  rw [flat_tone, flatToneFloats_eq_clockRun, Option.map_eq_none',
    Option.map_eq_none', clockRun_eq_none_iff]

/-- C8: connect_and_send binds exactly one outbound endpoint, at the address
ipc:///tmp/.psynth.(channel index) (ipc:///tmp/.psynth.0 for the default
channel 0), and sleeps a fixed 250 ms = 0.25 s warm-up interval after binding
and before the first publish. -/
theorem connect_and_send_bind_warmup (channel : ℤ) (k : ℕ) :
    (connect_and_send channel (k + 1)).take 3 =
      [PubEvent.bindAddr (psynthAddr channel), PubEvent.sleepFor (1 / 4),
        PubEvent.send] ∧
    (connect_and_send channel k).countP isBindEv = 1 ∧
    psynthAddr channel = "ipc:///tmp/.psynth." ++ toString channel ∧
    psynthAddr 0 = "ipc:///tmp/.psynth.0" ∧
    (1 / 4 : ℚ) = 250 / 1000 := by
  refine ⟨?_, ?_, rfl, by decide, by norm_num⟩
  · simp [connect_and_send, List.replicate_succ, loopIter]
  · rw [connect_and_send, List.countP_append, countP_loop]
    rfl

/-- C9: flat_tone touches no state but the module-level clock: for
sample_rate > 1 the final clock is the starting clock plus exactly the sample
count, and a call with count 0 returns the empty byte buffer with the clock
unchanged. -/
theorem flat_tone_frame_effect (enc : ℝ → Fin 4 → Byte) (f : ℝ) (r : ℤ)
    (n : ℕ) (c : ℤ) (hr : 1 < r) :
    (∃ bs, flat_tone enc f r n c = some (bs, c + n)) ∧
    flat_tone enc f r 0 c = some ([], c) := by
  constructor
  · refine ⟨((((List.range n).map (fun i : ℕ => c + (i : ℤ) + 1)).map
      (sampleVal f r)).map (packChunk enc)).flatten, ?_⟩
    rw [flat_tone, flatToneFloats_eq_clockRun, clockRun_of_one_lt hr]
    rfl
  · rfl

/-- Witness for C9 at enc = encZero, f = 440, r = 2, n = 1, c = 5. -/
theorem flat_tone_frame_effect_witness :
    (1 : ℤ) < 2 ∧
      ((∃ bs, flat_tone encZero 440 2 1 5 = some (bs, 5 + ((1 : ℕ) : ℤ))) ∧
        flat_tone encZero 440 2 0 5 = some ([], 5)) :=
  ⟨by norm_num, flat_tone_frame_effect encZero 440 2 1 5 (by norm_num)⟩

/-- C10: at sample_rate 1 the increment 1 % sample_rate is 0, so the clock
never advances and flat_tone returns n copies of the one encoded value
sin(2 pi f c) for the starting clock c, with the final clock still c. -/
theorem flat_tone_rate_one_constant (enc : ℝ → Fin 4 → Byte) (f : ℝ)
    (n : ℕ) (c : ℤ) :
    flatToneFloats f 1 n c =
      some (List.replicate n (Real.sin (2 * Real.pi * f * (c : ℝ))), c) ∧
    flat_tone enc f 1 n c =
      some ((List.replicate n
        (packChunk enc (Real.sin (2 * Real.pi * f * (c : ℝ))))).flatten, c) := by
  have hval : sampleVal f 1 c = Real.sin (2 * Real.pi * f * (c : ℝ)) := by
    rw [sampleVal]
    congr 1
    push_cast
    ring
  have hfl : flatToneFloats f 1 n c =
      some ((List.replicate n c).map (sampleVal f 1), c) := by
    rw [flatToneFloats_eq_clockRun, clockRun_one]
    rfl
  constructor
  · rw [hfl, List.map_replicate, hval]
  · rw [flat_tone, hfl]
    simp only [Option.map_some', List.map_replicate, hval]

end Psynth
